import Mathlib

/-!
Verification development for `tools/license_summary.py`, a tool that prints a
summary of licenses for the third-party dependencies of one package in a
multi-package (cargo) workspace.

The Python source is shallowly embedded: each Python function becomes a Lean
definition of the same name.  Interaction with the outside world is made
explicit:

* the filesystem is a record `FS` of pure functions (`isDir`, `isFile`,
  `listdir`, `read`), standing for `os.path.isdir`, `os.path.isfile`,
  `os.listdir` and `open(..).read()`;
* the network is a record `Net` whose `get` field maps a URL to the
  `(status code, body)` pair returned by `requests.get`;
* functions that issue network requests also return the list of URLs they
  requested, so that "zero network requests" is a statement about a value;
* `print` calls are accumulated into a list of output lines (one list entry
  per `print`), and raised exceptions become `Except` errors, so that a run
  aborted half-way still exposes the output it produced before aborting;
* the two subprocess invocations (`cargo metadata`, `cargo tree`) are
  abstracted by passing their parsed/unparsed stdout as arguments
  (`get_workspace_metadata` receives the parsed package list, and
  `print_license_summary` receives the raw stdout of `cargo tree`).

Strings model Python `str` (sequences of code points); paths are strings.
-/

/-- A package record as found in the `packages` array of `cargo metadata`
output.  Field names follow the JSON keys the script reads. -/
structure PkgInfo where
  name : String
  id : String
  manifest_path : String
  authors : List String
  repository : Option String
  license : Option String
  license_file : Option String
  source : Option String
deriving Repr, DecidableEq

/-- The workspace metadata after `get_workspace_metadata` has replaced the
`packages` array by a name-keyed dictionary (modelled as an association
list with unique keys, Python-dict style). -/
structure Metadata where
  packages : List (String × PkgInfo)
  workspace_root : String
deriving Repr, DecidableEq

/-- The record built by `fetch_license_info` (a Python dict with keys
`name`, `authors`, `repository`, `license`, `license_text`). -/
structure LicenseInfo where
  name : String
  authors : List String
  repository : Option String
  license : Option String
  license_text : String
deriving Repr, DecidableEq

/-- Exceptions the script can raise while iterating over dependencies:
a `KeyError` from indexing `metadata["packages"]` with an unknown name, or
the `RuntimeError` raised by `fetch_license_text`. -/
inductive Err where
  | keyError : String → Err
  | runtimeError : String → Err
deriving Repr, DecidableEq

/-- The filesystem, as the pure observations the script makes of it. -/
structure FS where
  isDir : String → Bool
  isFile : String → Bool
  listdir : String → List String
  read : String → String

/-- The network: `get url` is the `(status_code, body)` of `requests.get`. -/
structure Net where
  get : String → Nat × String

/-- Is an `Except` value a success?  (`isOk` of the Python try/except view.) -/
def exceptIsOk : Except ε α → Bool
  | .ok _ => true
  | .error _ => false

/-- Lexicographic comparison of code-point lists (Python string order). -/
def charListLe : List Char → List Char → Bool
  | [], _ => true
  | _ :: _, [] => false
  | a :: as, b :: bs =>
    if a = b then charListLe as bs else decide (a.toNat < b.toNat)

/-- Python `a <= b` on strings: code-point lexicographic order. -/
def strLe (a b : String) : Bool := charListLe a.data b.data

/-- Python `s.lower()` (ASCII case mapping, which is all the script needs). -/
def strLower (s : String) : String := String.mk (s.data.map Char.toLower)

/-- Python `s.startswith(p)`. -/
def strStartsWith (s p : String) : Bool := p.data.isPrefixOf s.data

/-- Python `s.endswith(p)`. -/
def strEndsWith (s p : String) : Bool := p.data.reverse.isPrefixOf s.data.reverse

/-- Python `s[n:]` (drop the first `n` characters). -/
def strDrop (s : String) (n : Nat) : String := String.mk (s.data.drop n)

/-- Python `s[:-n]` (drop the last `n` characters). -/
def strDropRight (s : String) (n : Nat) : String := String.mk ((s.data.reverse.drop n).reverse)

/-- Python `s.strip()`: remove leading and trailing whitespace. -/
def strTrim (s : String) : String :=
  String.mk ((s.data.dropWhile Char.isWhitespace).reverse.dropWhile Char.isWhitespace).reverse

/-- Split a character list at every character satisfying `p`, keeping empty
segments; `cur` is the current segment, reversed. -/
def splitCharsAux (p : Char → Bool) : List Char → List Char → List String
  | [], cur => [String.mk cur.reverse]
  | c :: cs, cur =>
    if p c then String.mk cur.reverse :: splitCharsAux p cs []
    else splitCharsAux p cs (c :: cur)

/-- Python `s.split("\n")`. -/
def splitLines (s : String) : List String :=
  splitCharsAux (fun c => c == '\n') s.data []

/-- Python `s.split()`: split on whitespace, discarding empty fields. -/
def splitWs (s : String) : List String :=
  (splitCharsAux (fun c => c.isWhitespace) s.data []).filter (fun t => t != "")

/-- Python `sep.join(l)`. -/
def strJoinSep (sep : String) : List String → String
  | [] => ""
  | [a] => a
  | a :: rest => a ++ sep ++ strJoinSep sep rest

/-- Concatenation of a list of strings. -/
def strConcat (l : List String) : String := l.foldl (fun a b => a ++ b) ""

/-- Longest common prefix of two character lists; the character-at-a-time
behaviour of `os.path.commonprefix`. -/
def commonPrefixChars : List Char → List Char → List Char
  | [], _ => []
  | _ :: _, [] => []
  | a :: as, b :: bs => if a = b then a :: commonPrefixChars as bs else []

/-- `os.path.commonprefix([a, b])`: the longest common *string* prefix of the
two paths (it is documented to work a character at a time, not path-aware). -/
def commonPrefixStr (a b : String) : String :=
  String.mk (commonPrefixChars a.data b.data)

/-- Drop trailing `/` characters (the `head.rstrip(sep)` step of
`posixpath.dirname`). -/
def dropTrailingSlashes (cs : List Char) : List Char :=
  (cs.reverse.dropWhile (fun c => c == '/')).reverse

/-- `os.path.dirname` for POSIX paths: everything up to and including the last
`/`, with trailing slashes stripped unless the result is empty or all
slashes. -/
def dirname (p : String) : String :=
  let cs := p.data
  let i := cs.length - (cs.reverse.takeWhile (fun c => c != '/')).length
  let head := cs.take i
  if head.isEmpty then String.mk head
  else if head.all (fun c => c == '/') then String.mk head
  else String.mk (dropTrailingSlashes head)

/-- `os.path.join` for POSIX paths, two arguments. -/
def joinPath (a b : String) : String :=
  if strStartsWith b "/" then b
  else if a == "" || strEndsWith a "/" then a ++ b
  else a ++ "/" ++ b

/-- Insert a string into an already-sorted list, keeping ascending order;
building block for the `sorted(..)` calls of the script. -/
def insertSorted (x : String) : List String → List String
  | [] => [x]
  | y :: ys => if strLe x y then x :: y :: ys else y :: insertSorted x ys

/-- Python `sorted(..)` on a collection of (distinct) strings: the ascending
rearrangement, by code-point lexicographic order. -/
def sortNames (l : List String) : List String :=
  l.foldr insertSorted []

/-- Python dict assignment `d[k] = v`: replace the binding if the key is
already present, otherwise append it. -/
def dictInsert : List (String × PkgInfo) → String → PkgInfo → List (String × PkgInfo)
  | [], k, v => [(k, v)]
  | (k', v') :: rest, k, v =>
    if k' == k then (k, v) :: rest else (k', v') :: dictInsert rest k v

/-- The loop of `get_workspace_metadata` that turns the `packages` array into
a dict keyed by package name.  Faithful to the source: the `assert` checks
whether the package **id** (not its name) is among the keys accumulated so
far, i.e. `assert pkgInfo["id"] not in pkgInfoByName`. -/
def buildPkgMap : List PkgInfo → List (String × PkgInfo) → Except String (List (String × PkgInfo))
  | [], acc => .ok acc
  | p :: rest, acc =>
    if acc.any (fun q => q.1 == p.id) then .error "AssertionError"
    else buildPkgMap rest (dictInsert acc p.name p)

/-- `get_workspace_metadata`, given the parsed `packages` array and
`workspace_root` of the `cargo metadata` JSON output. -/
def get_workspace_metadata (pkgs : List PkgInfo) (root : String) : Except String Metadata :=
  (buildPkgMap pkgs []).map (fun m => { packages := m, workspace_root := root })

/-- `is_local_package`: `none` models the `KeyError` raised when the name is
not a key of `metadata["packages"]`; otherwise `some` of the returned bool. -/
def is_local_package (metadata : Metadata) (name : String) : Option Bool :=
  match metadata.packages.lookup name with
  | none => none
  | some pkgInfo =>
    if pkgInfo.source.isSome then some false
    else
      let manifest := pkgInfo.manifest_path
      let root := commonPrefixStr manifest metadata.workspace_root
      if root != metadata.workspace_root then some false
      else some true

/-- The conventional-filename scan of `fetch_license_text`: walk the (sorted)
directory entries and return the contents of the first one whose lowercased
name is `copying` or `license`, or starts with `license.` or `license-`. -/
def scanLocal (fs : FS) (pkgRoot : String) : List String → Option String
  | [] => none
  | nm :: rest =>
    if strLower nm == "copying" then some (fs.read (joinPath pkgRoot nm))
    else if strLower nm == "license" then some (fs.read (joinPath pkgRoot nm))
    else if strStartsWith (strLower nm) "license." then some (fs.read (joinPath pkgRoot nm))
    else if strStartsWith (strLower nm) "license-" then some (fs.read (joinPath pkgRoot nm))
    else scanLocal fs pkgRoot rest

/-- The local-filesystem phase of `fetch_license_text`: the declared
`license_file` if present and existing, else the conventional-filename scan;
`none` when the manifest directory does not exist or nothing matched. -/
def localLicenseText (fs : FS) (pkgInfo : PkgInfo) : Option String :=
  let pkgRoot := dirname pkgInfo.manifest_path
  if fs.isDir pkgRoot then
    match pkgInfo.license_file with
    | some lf =>
      if fs.isFile (joinPath pkgRoot lf) then some (fs.read (joinPath pkgRoot lf))
      else scanLocal fs pkgRoot (sortNames (fs.listdir pkgRoot))
    | none => scanLocal fs pkgRoot (sortNames (fs.listdir pkgRoot))
  else none

/-- The GitHub web URL base the script recognises. -/
def githubUrlBase : String := "https://github.com/"

/-- Strip a trailing `.git` from the derived org/name path. -/
def stripGit (s : String) : String :=
  if strEndsWith s ".git" then strDropRight s 4 else s

/-- The candidate filename list tried remotely: the declared license file (if
any) followed by the fixed conventional names, in source order. -/
def tryFilesFor (pkgInfo : PkgInfo) : List String :=
  (match pkgInfo.license_file with | some lf => [lf] | none => []) ++
  ["LICENSE-APACHE", "LICENSE-MIT", "LICENSE",
   "LICENCE-APACHE", "LICENCE-MIT", "LICENCE",
   "COPYING"]

/-- The raw-content URL tried for one candidate filename, under `master`. -/
def rawUrl (orgAndName nm : String) : String :=
  "https://raw.githubusercontent.com/" ++ orgAndName ++ "/master/" ++ nm

/-- The remote loop of `fetch_license_text`: request each candidate URL in
order, stopping at the first status-200 response.  Returns the list of URLs
actually requested and the body of the successful response, if any. -/
def remoteTry (net : Net) (orgAndName : String) : List String → List String × Option String
  | [] => ([], none)
  | nm :: rest =>
    let url := rawUrl orgAndName nm
    if (net.get url).1 == 200 then ([url], some (net.get url).2)
    else
      let r := remoteTry net orgAndName rest
      (url :: r.1, r.2)

/-- The message of the `RuntimeError` raised when no license text is found:
`"Could not find license file for '{name}'".format(**pkgInfo)`. -/
def notFoundMsg (name : String) : String :=
  "Could not find license file for \x27" ++ name ++ "\x27"

/-- `fetch_license_text`: local declared file, then local conventional names,
then raw GitHub fetches, else a `RuntimeError`.  The first component is the
list of network requests issued (in order); the second the result. -/
def fetch_license_text (fs : FS) (net : Net) (pkgInfo : PkgInfo) :
    List String × Except String String :=
  match localLicenseText fs pkgInfo with
  | some text => ([], .ok text)
  | none =>
    match pkgInfo.repository with
    | some repo =>
      if repo != "" && strStartsWith repo githubUrlBase then
        let orgAndName := stripGit (strDrop repo githubUrlBase.length)
        match remoteTry net orgAndName (tryFilesFor pkgInfo) with
        | (urls, some body) => (urls, .ok body)
        | (urls, none) => (urls, .error (notFoundMsg pkgInfo.name))
      else ([], .error (notFoundMsg pkgInfo.name))
    | none => ([], .error (notFoundMsg pkgInfo.name))

/-- `fetch_license_info`: look the dependency up (a missing key is a
`KeyError`), then combine its declared metadata with the resolved license
text.  First component: the network requests issued. -/
def fetch_license_info (fs : FS) (net : Net) (metadata : Metadata) (dep : String) :
    List String × Except Err LicenseInfo :=
  match metadata.packages.lookup dep with
  | none => ([], .error (.keyError dep))
  | some pkgInfo =>
    match fetch_license_text fs net pkgInfo with
    | (urls, .ok text) =>
      (urls, .ok { name := dep, authors := pkgInfo.authors,
                   repository := pkgInfo.repository, license := pkgInfo.license,
                   license_text := text })
    | (urls, .error msg) => (urls, .error (.runtimeError msg))

/-- Lowercase hex digit, as used by `json.dumps` escape sequences. -/
def hexDigit (n : Nat) : Char :=
  if n < 10 then Char.ofNat (48 + n) else Char.ofNat (87 + n)

/-- Four lowercase hex digits of a number below 2^16. -/
def hexDigits4 (n : Nat) : String :=
  String.mk [hexDigit (n / 4096 % 16), hexDigit (n / 256 % 16),
             hexDigit (n / 16 % 16), hexDigit (n % 16)]

/-- Escape one character the way `json.dumps` (default `ensure_ascii=True`)
does: short escapes for the usual control characters, `\uXXXX` (with a
surrogate pair beyond the BMP) for other control and non-ASCII characters. -/
def jsonEscapeChar (c : Char) : String :=
  if c = '"' then "\\\""
  else if c = '\\' then "\\\\"
  else if c = '\n' then "\\n"
  else if c = '\t' then "\\t"
  else if c = '\r' then "\\r"
  else if c = '\x08' then "\\b"
  else if c = '\x0c' then "\\f"
  else if c.toNat < 32 then "\\u" ++ hexDigits4 c.toNat
  else if c.toNat < 127 then String.mk [c]
  else if c.toNat ≤ 65535 then "\\u" ++ hexDigits4 c.toNat
  else
    let v := c.toNat - 65536
    "\\u" ++ hexDigits4 (55296 + v / 1024) ++ "\\u" ++ hexDigits4 (56320 + v % 1024)

/-- A JSON string literal for `s`, `json.dumps` style. -/
def jsonString (s : String) : String :=
  "\"" ++ strConcat (s.data.map jsonEscapeChar) ++ "\""

/-- JSON for an optional string: `null` or a string literal. -/
def jsonOptStr : Option String → String
  | none => "null"
  | some s => jsonString s

/-- JSON for a list of strings, with `json.dumps` default separators. -/
def jsonStrList (xs : List String) : String :=
  "[" ++ strJoinSep ", " (xs.map jsonString) ++ "]"

/-- `json.dumps(pkgInfo)` for the dict built by `fetch_license_info`: keys in
insertion order, default separators. -/
def jsonDumpsLicenseInfo (li : LicenseInfo) : String :=
  "\x7b\"name\": " ++ jsonString li.name ++
  ", \"authors\": " ++ jsonStrList li.authors ++
  ", \"repository\": " ++ jsonOptStr li.repository ++
  ", \"license\": " ++ jsonOptStr li.license ++
  ", \"license_text\": " ++ jsonString li.license_text ++ "\x7d"

/-- Python `"{}".format(x)` for the `repository` field, which may be `None`. -/
def pyFormatOptStr : Option String → String
  | none => "None"
  | some s => s

/-- The lines printed for one record in plain-text mode (the `License:` line
only when a license identifier is present), ending with the separator. -/
def plainLines (li : LicenseInfo) : List String :=
  ["Name: " ++ li.name,
   "Authors: " ++ strJoinSep ", " li.authors,
   "Repository: " ++ pyFormatOptStr li.repository] ++
  (match li.license with | some l => ["License: " ++ l] | none => []) ++
  ["License Text:", "", li.license_text, "-------------"]

/-- One line of `cargo tree` output folded into the accumulating dependency
list: strip, skip blank lines, take the first whitespace-delimited token, add
it if not already present (Python `set.add`, with first-insertion order kept
so the list stands for the set). -/
def addDep (acc : List String) (ln : String) : List String :=
  let l := strTrim ln
  if l == "" then acc
  else
    let name := (splitWs l).headD ""
    if acc.contains name then acc else acc ++ [name]

/-- The dependency-set parse of the `cargo tree` stdout in
`print_license_summary`: split on newlines and fold each line in. -/
def parseDeps (stdout : String) : List String :=
  (splitLines stdout).foldl addDep []

instance [DecidableEq ε] [DecidableEq α] : DecidableEq (Except ε α) := fun x y =>
  match x, y with
  | .error e₁, .error e₂ =>
    if h : e₁ = e₂ then .isTrue (congrArg Except.error h)
    else .isFalse (fun hc => h (Except.error.inj hc))
  | .ok a₁, .ok a₂ =>
    if h : a₁ = a₂ then .isTrue (congrArg Except.ok h)
    else .isFalse (fun hc => h (Except.ok.inj hc))
  | .error _, .ok _ => .isFalse (fun hc => Except.noConfusion hc)
  | .ok _, .error _ => .isFalse (fun hc => Except.noConfusion hc)

/-- Everything observable about a run of `print_license_summary`: the printed
lines, the `LicenseInfo` records built, the dependency names for which
`fetch_license_info` was invoked, and whether the run finished or aborted. -/
structure RunResult where
  output : List String
  records : List LicenseInfo
  attempted : List String
  result : Except Err Unit
deriving Repr, DecidableEq

/-- The `for i, name in enumerate(sorted(deps))` loop of
`print_license_summary`; `n` is `len(deps)` and `i` the enumeration index.
Local packages are skipped; a `KeyError` from `is_local_package` or an error
from `fetch_license_info` aborts the loop (exception propagation).  In JSON
mode each record is followed by `]` when `i == len(deps) - 1` and by `,`
otherwise, exactly as in the source. -/
def summaryLoop (fs : FS) (net : Net) (metadata : Metadata) (asJson : Bool) (n : Nat) :
    List String → Nat → RunResult
  | [], _ => { output := [], records := [], attempted := [], result := .ok () }
  | name :: rest, i =>
    match is_local_package metadata name with
    | none => { output := [], records := [], attempted := [], result := .error (.keyError name) }
    | some true => summaryLoop fs net metadata asJson n rest (i + 1)
    | some false =>
      match fetch_license_info fs net metadata name with
      | (_, .error e) =>
        { output := [], records := [], attempted := [name], result := .error e }
      | (_, .ok li) =>
        let r := summaryLoop fs net metadata asJson n rest (i + 1)
        { output := (if asJson then
                       [jsonDumpsLicenseInfo li, if i == n - 1 then "]" else ","]
                     else plainLines li) ++ r.output,
          records := li :: r.records,
          attempted := name :: r.attempted,
          result := r.result }

/-- `print_license_summary`, from the point where the `cargo tree` stdout is
in hand: parse the dependency set, print the opening line (`[` in JSON mode,
the separator otherwise), then run the loop over the sorted names. -/
def print_license_summary (fs : FS) (net : Net) (metadata : Metadata)
    (treeStdout : String) (asJson : Bool) : RunResult :=
  let deps := parseDeps treeStdout
  let r := summaryLoop fs net metadata asJson deps.length (sortNames deps) 0
  { r with output := (if asJson then "[" else "-------------") :: r.output }

/-- The filename predicate of the conventional scan, as one boolean. -/
def isLicenseEntry (nm : String) : Bool :=
  strLower nm == "copying" || strLower nm == "license" ||
  strStartsWith (strLower nm) "license." || strStartsWith (strLower nm) "license-"

theorem scanLocal_eq_find (fs : FS) (pkgRoot : String) (entries : List String) :
    scanLocal fs pkgRoot entries =
      (entries.find? isLicenseEntry).map (fun nm => fs.read (joinPath pkgRoot nm)) := by
  induction entries with
  | nil => rfl
  | cons nm rest ih =>
    simp only [scanLocal, isLicenseEntry, List.find?]
    cases h1 : strLower nm == "copying" <;> cases h2 : strLower nm == "license" <;>
      cases h3 : strStartsWith (strLower nm) "license." <;>
      cases h4 : strStartsWith (strLower nm) "license-" <;>
      simp [h1, h2, h3, h4, ih]

theorem remoteTry_eq (net : Net) (org : String) (files : List String) :
    remoteTry net org files =
      ((files.map (rawUrl org)).takeWhile (fun u => (net.get u).1 != 200) ++
         ((files.map (rawUrl org)).find? (fun u => (net.get u).1 == 200)).toList,
       ((files.map (rawUrl org)).find? (fun u => (net.get u).1 == 200)).map
         (fun u => (net.get u).2)) := by
  induction files with
  | nil => rfl
  | cons nm rest ih =>
    simp only [remoteTry, List.map, List.takeWhile, List.find?]
    cases h : (net.get (rawUrl org nm)).1 == 200 <;>
      have hb := congrArg (fun b => !b) h <;>
      simp only [Bool.not_false, Bool.not_true] at hb <;>
      simp [h, hb, bne, ih]

theorem fetch_license_info_name (fs : FS) (net : Net) (metadata : Metadata)
    (dep : String) (li : LicenseInfo)
    (h : (fetch_license_info fs net metadata dep).2 = .ok li) : li.name = dep := by
  simp only [fetch_license_info] at h
  cases hl : metadata.packages.lookup dep with
  | none => simp only [hl] at h; simp at h
  | some pkgInfo =>
    simp only [hl] at h
    cases hf : fetch_license_text fs net pkgInfo with
    | mk urls res =>
      simp only [hf] at h
      cases res with
      | ok text => simp at h; rw [← h]
      | error msg => simp at h

theorem insertSorted_perm (x : String) (l : List String) :
    (insertSorted x l).Perm (x :: l) := by
  induction l with
  | nil => exact List.Perm.refl _
  | cons y ys ih =>
    simp only [insertSorted]
    by_cases h : strLe x y = true
    · simp only [h, if_true]; exact List.Perm.refl _
    · simp only [h, if_false]
      exact (ih.cons y).trans (List.Perm.swap x y ys)

theorem sortNames_perm (l : List String) : (sortNames l).Perm l := by
  induction l with
  | nil => exact List.Perm.refl _
  | cons a l ih => exact (insertSorted_perm a (sortNames l)).trans (ih.cons a)

theorem mem_sortNames (a : String) (l : List String) : a ∈ sortNames l ↔ a ∈ l :=
  (sortNames_perm l).mem_iff

theorem sortNames_nodup (l : List String) (h : l.Nodup) : (sortNames l).Nodup :=
  ((sortNames_perm l).nodup_iff).mpr h

theorem addDep_nodup (acc : List String) (ln : String) (h : acc.Nodup) :
    (addDep acc ln).Nodup := by
  simp only [addDep]
  split
  · exact h
  · split
    · exact h
    · rename_i hc
      have hn : ((splitWs (strTrim ln)).headD "") ∉ acc := by simpa using hc
      exact List.Nodup.append h (List.nodup_singleton _) (by simpa using hn)

theorem foldl_addDep_nodup : ∀ (lines : List String) (acc : List String), acc.Nodup →
    (lines.foldl addDep acc).Nodup
  | [], _, h => h
  | ln :: rest, acc, h => foldl_addDep_nodup rest (addDep acc ln) (addDep_nodup acc ln h)

theorem parseDeps_nodup (stdout : String) : (parseDeps stdout).Nodup :=
  foldl_addDep_nodup _ [] List.nodup_nil

theorem is_local_package_none (metadata : Metadata) (name : String)
    (h : metadata.packages.lookup name = none) : is_local_package metadata name = none := by
  simp [is_local_package, h]

theorem summaryLoop_records_sound (fs : FS) (net : Net) (metadata : Metadata)
    (asJson : Bool) (n : Nat) :
    ∀ (l : List String) (i : Nat) (li : LicenseInfo),
      li ∈ (summaryLoop fs net metadata asJson n l i).records →
      (fetch_license_info fs net metadata li.name).2 = .ok li := by
  intro l
  induction l with
  | nil => intro i li h; simp [summaryLoop] at h
  | cons name rest ih =>
    intro i li h
    cases hl : is_local_package metadata name with
    | none => simp [summaryLoop, hl] at h
    | some b =>
      cases b with
      | true =>
        simp only [summaryLoop, hl] at h
        exact ih (i + 1) li h
      | false =>
        cases hf : fetch_license_info fs net metadata name with
        | mk urls res =>
          cases res with
          | error e => simp [summaryLoop, hl, hf] at h
          | ok li' =>
            simp only [summaryLoop, hl, hf, List.mem_cons] at h
            rcases h with h | h
            · subst h
              have hname := fetch_license_info_name fs net metadata name li (by rw [hf])
              rw [hname, hf]
            · exact ih (i + 1) li h

theorem summaryLoop_ok_records (fs : FS) (net : Net) (metadata : Metadata)
    (asJson : Bool) (n : Nat) :
    ∀ (l : List String) (i : Nat),
      (summaryLoop fs net metadata asJson n l i).result = .ok () →
      (summaryLoop fs net metadata asJson n l i).records.map (fun r => r.name) =
        l.filter (fun m => is_local_package metadata m == some false) := by
  have hbT : ((some true : Option Bool) == some false) = false := by decide
  have hbF : ((some false : Option Bool) == some false) = true := by decide
  intro l
  induction l with
  | nil => intro i _; rfl
  | cons name rest ih =>
    intro i hok
    cases hl : is_local_package metadata name with
    | none => simp [summaryLoop, hl] at hok
    | some b =>
      cases b with
      | true =>
        have hok' : (summaryLoop fs net metadata asJson n rest (i + 1)).result = .ok () := by
          simpa [summaryLoop, hl] using hok
        simp [summaryLoop, hl, List.filter_cons, hbT, ih (i + 1) hok']
      | false =>
        cases hf : fetch_license_info fs net metadata name with
        | mk urls res =>
          cases res with
          | error e => simp [summaryLoop, hl, hf] at hok
          | ok li' =>
            have hok' : (summaryLoop fs net metadata asJson n rest (i + 1)).result = .ok () := by
              simpa [summaryLoop, hl, hf] using hok
            have hname := fetch_license_info_name fs net metadata name li' (by rw [hf])
            simp [summaryLoop, hl, hf, List.filter_cons, hbF, hname, ih (i + 1) hok']

theorem summaryLoop_fail (fs : FS) (net : Net) (metadata : Metadata)
    (asJson : Bool) (n : Nat) :
    ∀ (l : List String) (i : Nat) (name : String),
      name ∈ l → is_local_package metadata name = some false →
      exceptIsOk (fetch_license_info fs net metadata name).2 = false →
      (summaryLoop fs net metadata asJson n l i).result ≠ .ok () := by
  intro l
  induction l with
  | nil => intro i name h _ _; simp at h
  | cons hd rest ih =>
    intro i name hmem hloc hfail
    by_cases heq : hd = name
    · subst heq
      cases hf : fetch_license_info fs net metadata hd with
      | mk urls res =>
        cases res with
        | error e => simp [summaryLoop, hloc, hf]
        | ok li => rw [hf] at hfail; simp [exceptIsOk] at hfail
    · have hmem' : name ∈ rest := by
        rcases List.mem_cons.mp hmem with h | h
        · exact absurd h.symm heq
        · exact h
      cases hl : is_local_package metadata hd with
      | none => simp [summaryLoop, hl]
      | some b =>
        cases b with
        | true =>
          simp only [summaryLoop, hl]
          exact ih (i + 1) name hmem' hloc hfail
        | false =>
          cases hf : fetch_license_info fs net metadata hd with
          | mk urls res =>
            cases res with
            | error e => simp [summaryLoop, hl, hf]
            | ok li =>
              simp only [summaryLoop, hl, hf]
              exact ih (i + 1) name hmem' hloc hfail

theorem summaryLoop_attempted_sound (fs : FS) (net : Net) (metadata : Metadata)
    (asJson : Bool) (n : Nat) :
    ∀ (l : List String) (i : Nat) (x : String),
      x ∈ (summaryLoop fs net metadata asJson n l i).attempted →
      is_local_package metadata x = some false := by
  intro l
  induction l with
  | nil => intro i x h; simp [summaryLoop] at h
  | cons name rest ih =>
    intro i x h
    cases hl : is_local_package metadata name with
    | none => simp [summaryLoop, hl] at h
    | some b =>
      cases b with
      | true =>
        simp only [summaryLoop, hl] at h
        exact ih (i + 1) x h
      | false =>
        cases hf : fetch_license_info fs net metadata name with
        | mk urls res =>
          cases res with
          | error e =>
            simp [summaryLoop, hl, hf] at h
            rw [h]; exact hl
          | ok li =>
            simp only [summaryLoop, hl, hf, List.mem_cons] at h
            rcases h with h | h
            · rw [h]; exact hl
            · exact ih (i + 1) x h

theorem summaryLoop_missing (fs : FS) (net : Net) (metadata : Metadata)
    (asJson : Bool) (n : Nat) :
    ∀ (l : List String) (i : Nat) (name : String),
      name ∈ l → is_local_package metadata name = none →
      (summaryLoop fs net metadata asJson n l i).result ≠ .ok () := by
  intro l
  induction l with
  | nil => intro i name h _; simp at h
  | cons hd rest ih =>
    intro i name hmem hnone
    by_cases heq : hd = name
    · subst heq; simp [summaryLoop, hnone]
    · have hmem' : name ∈ rest := by
        rcases List.mem_cons.mp hmem with h | h
        · exact absurd h.symm heq
        · exact h
      cases hl : is_local_package metadata hd with
      | none => simp [summaryLoop, hl]
      | some b =>
        cases b with
        | true =>
          simp only [summaryLoop, hl]
          exact ih (i + 1) name hmem' hnone
        | false =>
          cases hf : fetch_license_info fs net metadata hd with
          | mk urls res =>
            cases res with
            | error e => simp [summaryLoop, hl, hf]
            | ok li =>
              simp only [summaryLoop, hl, hf]
              exact ih (i + 1) name hmem' hnone

theorem summaryLoop_keyError (fs : FS) (net : Net) (metadata : Metadata)
    (asJson : Bool) (n : Nat) :
    ∀ (l : List String) (i : Nat) (name : String),
      name ∈ l → is_local_package metadata name = none →
      (∀ m ∈ l, m ≠ name →
        ∃ b, is_local_package metadata m = some b ∧
          (b = false → exceptIsOk (fetch_license_info fs net metadata m).2 = true)) →
      (summaryLoop fs net metadata asJson n l i).result = .error (.keyError name) := by
  intro l
  induction l with
  | nil => intro i name h _ _; simp at h
  | cons hd rest ih =>
    intro i name hmem hnone hwb
    by_cases heq : hd = name
    · subst heq; simp [summaryLoop, hnone]
    · have hmem' : name ∈ rest := by
        rcases List.mem_cons.mp hmem with h | h
        · exact absurd h.symm heq
        · exact h
      obtain ⟨b, hb, hbf⟩ := hwb hd (List.mem_cons_self hd rest) heq
      cases b with
      | true =>
        simp only [summaryLoop, hb]
        exact ih (i + 1) name hmem' hnone (fun m hm => hwb m (List.mem_cons_of_mem hd hm))
      | false =>
        have hok := hbf rfl
        cases hf : fetch_license_info fs net metadata hd with
        | mk urls res =>
          cases res with
          | error e => rw [hf] at hok; simp [exceptIsOk] at hok
          | ok li =>
            simp only [summaryLoop, hb, hf]
            exact ih (i + 1) name hmem' hnone (fun m hm => hwb m (List.mem_cons_of_mem hd hm))

theorem commonPrefixChars_eq_iff (as bs : List Char) :
    commonPrefixChars as bs = bs ↔ bs <+: as := by
  induction bs generalizing as with
  | nil => cases as <;> simp [commonPrefixChars]
  | cons b bs ih =>
    cases as with
    | nil => simp [commonPrefixChars]
    | cons a as =>
      simp only [commonPrefixChars]
      by_cases h : a = b
      · subst h; simp [ih, List.cons_prefix_cons]
      · simp only [h, if_false]
        simp [List.cons_prefix_cons]
        intro hc
        exact absurd hc.symm h

theorem commonPrefixStr_eq_iff (a b : String) :
    commonPrefixStr a b = b ↔ b.data <+: a.data := by
  rw [String.ext_iff]
  exact commonPrefixChars_eq_iff a.data b.data

/-- Modelled from the spec: the local-package test as the spec's testable
property reads it, with "rooted under the workspace root directory" taken as
genuine path containment (the manifest path is the root itself or lies below
the root directory), rather than the character-wise common string prefix the
source computes.  Used only to exhibit where the two disagree. -/
def is_local_package_spec (metadata : Metadata) (name : String) : Option Bool :=
  match metadata.packages.lookup name with
  | none => none
  | some pkgInfo =>
    if pkgInfo.source.isSome then some false
    else if pkgInfo.manifest_path == metadata.workspace_root
        || (metadata.workspace_root ++ "/").data.isPrefixOf pkgInfo.manifest_path.data
      then some true
    else some false

def pkgSib : PkgInfo :=
  { name := "sib", id := "sib 0.1.0 (path+file:///ws-sibling)",
    manifest_path := "/ws-sibling/Cargo.toml", authors := [], repository := none,
    license := none, license_file := none, source := none }

def metaC4 : Metadata := { packages := [("sib", pkgSib)], workspace_root := "/ws" }

/-- C4 counterexample: a package in a sibling directory whose name merely
begins with the workspace root's name (`/ws-sibling` next to root `/ws`, no
source origin) is classified as local by `is_local_package`, although its
manifest path is not rooted under the workspace root — so the claimed
"if and only if rooted under the workspace root, regardless of name
formatting" is false of the code. -/
theorem sibling_dir_classified_local :
    is_local_package metaC4 "sib" = some true ∧
    is_local_package_spec metaC4 "sib" = some false := by decide

/-- C4 (amended): `is_local_package` returns true iff the package has no
source origin and the workspace root is a character-wise *string* prefix of
the manifest path (`os.path.commonprefix` works a character at a time); a
sibling directory whose name begins with the workspace root string is
therefore also classified as local. -/
theorem is_local_iff_string_prefix_root (metadata : Metadata) (name : String) (pkgInfo : PkgInfo)
    (h : metadata.packages.lookup name = some pkgInfo) :
    (is_local_package metadata name = some true ↔
      pkgInfo.source = none ∧
        metadata.workspace_root.data <+: pkgInfo.manifest_path.data) := by
  simp only [is_local_package, h]
  cases hs : pkgInfo.source with
  | some s => simp [hs]
  | none =>
    simp only [hs, Option.isSome_none, Bool.false_eq_true, if_false]
    by_cases hp : commonPrefixStr pkgInfo.manifest_path metadata.workspace_root =
        metadata.workspace_root
    · have hbeq : (commonPrefixStr pkgInfo.manifest_path metadata.workspace_root ==
          metadata.workspace_root) = true := beq_iff_eq.mpr hp
      simp [bne, hbeq, (commonPrefixStr_eq_iff _ _).mp hp]
    · have hbeq : (commonPrefixStr pkgInfo.manifest_path metadata.workspace_root ==
          metadata.workspace_root) = false := beq_eq_false_iff_ne.mpr hp
      have hnp : ¬ metadata.workspace_root.data <+: pkgInfo.manifest_path.data :=
        fun hc => hp ((commonPrefixStr_eq_iff _ _).mpr hc)
      simp [bne, hbeq, hnp]

def pkgLoc : PkgInfo :=
  { name := "loc", id := "loc 0.1.0 (path+file:///ws/loc)",
    manifest_path := "/ws/loc/Cargo.toml", authors := [], repository := none,
    license := none, license_file := none, source := none }

def metaC4W : Metadata := { packages := [("loc", pkgLoc)], workspace_root := "/ws" }

/-- Witness for the amended C4 at a genuine workspace member. -/
theorem is_local_iff_string_prefix_root_witness :
    is_local_package metaC4W "loc" = some true :=
  (is_local_iff_string_prefix_root metaC4W "loc" pkgLoc (by decide)).mpr ⟨rfl, by decide⟩

/-- C5: when a dependency's manifest directory exists on disk and its
declared license-file name refers to an existing file under that directory,
`fetch_license_text` returns exactly that file's contents with an empty
request trace — the conventional fallback names are never consulted, no
matter what else the directory holds. -/
theorem declared_license_file_wins (fs : FS) (net : Net) (pkgInfo : PkgInfo) (lf : String)
    (h1 : pkgInfo.license_file = some lf)
    (h2 : fs.isDir (dirname pkgInfo.manifest_path) = true)
    (h3 : fs.isFile (joinPath (dirname pkgInfo.manifest_path) lf) = true) :
    fetch_license_text fs net pkgInfo =
      ([], .ok (fs.read (joinPath (dirname pkgInfo.manifest_path) lf))) := by
  simp [fetch_license_text, localLicenseText, h1, h2, h3]

def fsC5 : FS :=
  { isDir := fun p => p == "/reg/dep5",
    isFile := fun p => p == "/reg/dep5/MY-LICENSE" || p == "/reg/dep5/LICENSE",
    listdir := fun p => if p == "/reg/dep5" then ["Cargo.toml", "LICENSE", "MY-LICENSE"] else [],
    read := fun p => if p == "/reg/dep5/MY-LICENSE" then "DECLARED TEXT"
      else if p == "/reg/dep5/LICENSE" then "FALLBACK TEXT" else "" }

def netC5 : Net := { get := fun _ => (404, "") }

def pkgC5 : PkgInfo :=
  { name := "dep5", id := "dep5 1.0.0 (registry)", manifest_path := "/reg/dep5/Cargo.toml",
    authors := ["Dev Five"], repository := some "https://github.com/org/dep5",
    license := some "MIT", license_file := some "MY-LICENSE", source := some "registry" }

/-- Witness for C5 in a directory that also holds a conventional `LICENSE`
with different contents: the declared file's text is returned. -/
theorem declared_license_file_wins_witness :
    fetch_license_text fsC5 netC5 pkgC5 = ([], .ok "DECLARED TEXT") := by
  have h := declared_license_file_wins fsC5 netC5 pkgC5 "MY-LICENSE" rfl (by decide) (by decide)
  rw [h]; decide

/-- C6: with no declared license file, a manifest directory that exists and
whose sorted listing has a first conventionally named entry (`copying`,
`license`, `license.*`, `license-*`, case-insensitive), `fetch_license_text`
returns that local file's contents, and the request trace is empty: zero
network requests are performed. -/
theorem local_license_no_network (fs : FS) (net : Net) (pkgInfo : PkgInfo) (nm : String)
    (h1 : pkgInfo.license_file = none)
    (h2 : fs.isDir (dirname pkgInfo.manifest_path) = true)
    (h3 : (sortNames (fs.listdir (dirname pkgInfo.manifest_path))).find? isLicenseEntry
        = some nm) :
    fetch_license_text fs net pkgInfo =
      ([], .ok (fs.read (joinPath (dirname pkgInfo.manifest_path) nm))) := by
  simp [fetch_license_text, localLicenseText, h1, h2, scanLocal_eq_find, h3]

def fsC6 : FS :=
  { isDir := fun p => p == "/reg/dep6",
    isFile := fun _ => false,
    listdir := fun p => if p == "/reg/dep6" then ["src", "LICENSE", "Cargo.toml"] else [],
    read := fun p => if p == "/reg/dep6/LICENSE" then "LOCAL LICENSE TEXT" else "" }

def netC6 : Net := { get := fun _ => (200, "SHOULD NOT BE FETCHED") }

def pkgC6 : PkgInfo :=
  { name := "dep6", id := "dep6 1.0.0 (registry)", manifest_path := "/reg/dep6/Cargo.toml",
    authors := ["Dev Six"], repository := some "https://github.com/org/dep6",
    license := some "MIT", license_file := none, source := some "registry" }

/-- Witness for C6: a `LICENSE` file is found locally and the trace of
issued network requests is empty even though the network would answer. -/
theorem local_license_no_network_witness :
    fetch_license_text fsC6 netC6 pkgC6 = ([], .ok "LOCAL LICENSE TEXT") := by
  have h := local_license_no_network fsC6 netC6 pkgC6 "LICENSE" rfl (by decide) (by decide)
  rw [h]; decide

theorem remote_branch_eq (net : Net) (org : String) (files : List String) (name : String) :
    (match remoteTry net org files with
     | (urls, some body) => (urls, Except.ok body)
     | (urls, none) => (urls, Except.error (notFoundMsg name))) =
      ((files.map (rawUrl org)).takeWhile (fun u => (net.get u).1 != 200) ++
         ((files.map (rawUrl org)).find? (fun u => (net.get u).1 == 200)).toList,
       match (files.map (rawUrl org)).find? (fun u => (net.get u).1 == 200) with
       | some u => Except.ok (net.get u).2
       | none => Except.error (notFoundMsg name)) := by
  rw [remoteTry_eq]
  cases hfind : (files.map (rawUrl org)).find? (fun u => (net.get u).1 == 200) <;>
    simp [hfind]

/-- C7: with no usable local license file and a repository URL beginning with
the GitHub web prefix, the candidate files are fetched in exactly the claimed
order — the declared license-file name first (if any), then LICENSE-APACHE,
LICENSE-MIT, LICENSE, LICENCE-APACHE, LICENCE-MIT, LICENCE, COPYING — as
raw-content URLs under the `master` branch of the org/name derived from the
URL with a trailing `.git` stripped; the request trace stops at the first
status-200 response, whose body is returned, and the not-found error is the
result when every candidate misses.  (The source treats exactly status 200
as success.) -/
theorem remote_fetch_order (fs : FS) (net : Net) (pkgInfo : PkgInfo) (repo : String)
    (h1 : localLicenseText fs pkgInfo = none)
    (h2 : pkgInfo.repository = some repo)
    (h3 : strStartsWith repo "https://github.com/" = true) :
    fetch_license_text fs net pkgInfo =
      (let orgAndName := if strEndsWith (strDrop repo 19) ".git"
                         then strDropRight (strDrop repo 19) 4
                         else strDrop repo 19
       let urls := ((match pkgInfo.license_file with
                      | some lf => [lf]
                      | none => []) ++
                    ["LICENSE-APACHE", "LICENSE-MIT", "LICENSE",
                     "LICENCE-APACHE", "LICENCE-MIT", "LICENCE", "COPYING"]).map
                     (fun nm => "https://raw.githubusercontent.com/" ++ orgAndName ++
                       "/master/" ++ nm)
       (urls.takeWhile (fun u => (net.get u).1 != 200) ++
          (urls.find? (fun u => (net.get u).1 == 200)).toList,
        match urls.find? (fun u => (net.get u).1 == 200) with
        | some u => Except.ok (net.get u).2
        | none => Except.error (notFoundMsg pkgInfo.name))) := by
  have hne : repo ≠ "" := by
    intro he
    rw [he] at h3
    exact absurd h3 (by decide)
  have hrne : (repo == "") = false := beq_eq_false_iff_ne.mpr hne
  have hcond : (repo != "" && strStartsWith repo githubUrlBase) = true := by
    simp only [bne, hrne, Bool.not_false, Bool.true_and]
    exact h3
  simp only [fetch_license_text, h1, h2, hcond, if_true]
  rw [remote_branch_eq]
  rfl

def fsC7 : FS :=
  { isDir := fun _ => false,
    isFile := fun _ => false,
    listdir := fun _ => [],
    read := fun _ => "" }

def netC7 : Net :=
  { get := fun u =>
      if u == "https://raw.githubusercontent.com/org/dep7/master/LICENSE-MIT"
      then (200, "MIT BODY") else (404, "") }

def pkgC7 : PkgInfo :=
  { name := "dep7", id := "dep7 1.0.0 (registry)", manifest_path := "/reg/dep7/Cargo.toml",
    authors := ["Dev Seven"], repository := some "https://github.com/org/dep7.git",
    license := some "MIT", license_file := none, source := some "registry" }

/-- Witness for C7: the `.git` suffix is stripped, LICENSE-APACHE is tried
before LICENSE-MIT, and fetching stops at the first 200 response. -/
theorem remote_fetch_order_witness :
    fetch_license_text fsC7 netC7 pkgC7 =
      (["https://raw.githubusercontent.com/org/dep7/master/LICENSE-APACHE",
        "https://raw.githubusercontent.com/org/dep7/master/LICENSE-MIT"],
       .ok "MIT BODY") := by
  have h := remote_fetch_order fsC7 netC7 pkgC7 "https://github.com/org/dep7.git"
    (by decide) rfl (by decide)
  rw [h]; decide

/-- C8: when the local lookup finds nothing and the repository URL is absent
or does not begin with the GitHub web prefix, or every remote candidate
returns a non-200 status, `fetch_license_text` fails with the not-found
error whose message names the dependency's package. -/
theorem license_not_found_names_package (fs : FS) (net : Net) (pkgInfo : PkgInfo)
    (h1 : localLicenseText fs pkgInfo = none)
    (h2 : ∀ repo, pkgInfo.repository = some repo →
        strStartsWith repo "https://github.com/" = true →
        ∀ nm ∈ tryFilesFor pkgInfo,
          (net.get (rawUrl (stripGit (strDrop repo githubUrlBase.length)) nm)).1 ≠ 200) :
    (fetch_license_text fs net pkgInfo).2 =
      .error ("Could not find license file for \x27" ++ pkgInfo.name ++ "\x27") := by
  simp only [fetch_license_text, h1]
  cases hr : pkgInfo.repository with
  | none => rfl
  | some repo =>
    cases hgh : (repo != "" && strStartsWith repo githubUrlBase) with
    | false => simp [hgh, notFoundMsg]
    | true =>
      have hstart : strStartsWith repo "https://github.com/" = true :=
        ((Bool.and_eq_true _ _).mp hgh).2
      have hfind : (((tryFilesFor pkgInfo).map
          (rawUrl (stripGit (strDrop repo githubUrlBase.length)))).find?
            (fun u => (net.get u).1 == 200)) = none := by
        apply List.find?_eq_none.mpr
        intro u hu
        obtain ⟨nm, hnm, hunm⟩ := List.mem_map.mp hu
        rw [← hunm]
        simpa using h2 repo hr hstart nm hnm
      simp [hgh, remoteTry_eq, hfind, notFoundMsg]

def fsC8 : FS :=
  { isDir := fun _ => false,
    isFile := fun _ => false,
    listdir := fun _ => [],
    read := fun _ => "" }

def netC8 : Net := { get := fun _ => (404, "") }

def pkgC8 : PkgInfo :=
  { name := "dep8", id := "dep8 1.0.0 (registry)", manifest_path := "/reg/dep8/Cargo.toml",
    authors := ["Dev Eight"], repository := some "https://gitlab.com/org/dep8",
    license := none, license_file := none, source := some "registry" }

/-- Witness for C8 at a dependency with a non-GitHub repository URL and no
local files: the error message names the package. -/
theorem license_not_found_names_package_witness :
    (fetch_license_text fsC8 netC8 pkgC8).2 =
      .error ("Could not find license file for \x27" ++ "dep8" ++ "\x27") :=
  license_not_found_names_package fsC8 netC8 pkgC8 (by decide)
    (fun repo hr hs => by
      rw [show repo = "https://gitlab.com/org/dep8" from Option.some.inj hr.symm] at hs
      exact absurd hs (by decide))

/-- C1 (amended): if some non-local dependency fails license resolution, the
run aborts — the result is not success and no record is ever produced for
the failing dependency — but the source prints each record as soon as it is
resolved, so output printed for dependencies processed before the failure is
not retracted (see `partial_report_cx` for a run whose aborted output still
contains an earlier record). -/
theorem run_aborts_on_resolution_failure (fs : FS) (net : Net) (metadata : Metadata)
    (treeStdout : String) (asJson : Bool) (name : String)
    (h1 : name ∈ parseDeps treeStdout)
    (h2 : is_local_package metadata name = some false)
    (h3 : exceptIsOk (fetch_license_info fs net metadata name).2 = false) :
    (print_license_summary fs net metadata treeStdout asJson).result ≠ .ok () ∧
    name ∉ (print_license_summary fs net metadata treeStdout asJson).records.map
        (fun r => r.name) := by
  constructor
  · exact summaryLoop_fail fs net metadata asJson (parseDeps treeStdout).length
      (sortNames (parseDeps treeStdout)) 0 name ((mem_sortNames name _).mpr h1) h2 h3
  · intro hmem
    have hmem' : name ∈ (summaryLoop fs net metadata asJson (parseDeps treeStdout).length
        (sortNames (parseDeps treeStdout)) 0).records.map (fun r => r.name) := hmem
    obtain ⟨li, hli, hname⟩ := List.mem_map.mp hmem'
    have hsound := summaryLoop_records_sound fs net metadata asJson
      (parseDeps treeStdout).length (sortNames (parseDeps treeStdout)) 0 li hli
    rw [hname] at hsound
    rw [hsound] at h3
    simp [exceptIsOk] at h3

def pkgAaaC1 : PkgInfo :=
  { name := "aaa", id := "aaa 1.0.0 (registry)", manifest_path := "/reg/aaa/Cargo.toml",
    authors := ["Alice"], repository := none, license := some "MIT",
    license_file := some "LIC", source := some "registry" }

def pkgBbbC1 : PkgInfo :=
  { name := "bbb", id := "bbb 1.0.0 (registry)", manifest_path := "/reg/bbb/Cargo.toml",
    authors := ["Bob"], repository := none, license := none,
    license_file := none, source := some "registry" }

def metaC1 : Metadata :=
  { packages := [("aaa", pkgAaaC1), ("bbb", pkgBbbC1)], workspace_root := "/ws" }

def fsC1 : FS :=
  { isDir := fun p => p == "/reg/aaa",
    isFile := fun p => p == "/reg/aaa/LIC",
    listdir := fun _ => [],
    read := fun p => if p == "/reg/aaa/LIC" then "AAA LICENSE TEXT" else "" }

def netC1 : Net := { get := fun _ => (404, "") }

/-- C1 counterexample: dependency `bbb` fails resolution after `aaa` already
resolved; the run aborts, but the record already printed for `aaa` stands in
the output — a partial report IS emitted, contradicting the claim that the
output contains no record for any dependency. -/
theorem partial_report_cx :
    (print_license_summary fsC1 netC1 metaC1 "aaa v1\nbbb v1" false).result =
      .error (.runtimeError (notFoundMsg "bbb")) ∧
    "Name: aaa" ∈ (print_license_summary fsC1 netC1 metaC1 "aaa v1\nbbb v1" false).output := by
  decide

/-- Witness for the amended C1, at the same failing run. -/
theorem run_aborts_on_resolution_failure_witness :
    (print_license_summary fsC1 netC1 metaC1 "aaa v1\nbbb v1" false).result ≠ .ok () ∧
    "bbb" ∉ (print_license_summary fsC1 netC1 metaC1 "aaa v1\nbbb v1" false).records.map
        (fun r => r.name) :=
  run_aborts_on_resolution_failure fsC1 netC1 metaC1 "aaa v1\nbbb v1" false "bbb"
    (by decide) (by decide) (by decide)

/-- C9: if `print_license_summary` completes successfully then every parsed
dependency name that is not a local package resolved: some `LicenseInfo`
comes from a successful `fetch_license_info` for it, and exactly one record
with that name is in the produced record list.  Conversely, a non-local
dependency whose resolution fails keeps the run from completing. -/
theorem nonlocal_deps_resolve_exactly_once (fs : FS) (net : Net) (metadata : Metadata)
    (treeStdout : String) (asJson : Bool) :
    ((print_license_summary fs net metadata treeStdout asJson).result = .ok () →
      ∀ name ∈ parseDeps treeStdout, is_local_package metadata name = some false →
        ∃ li, (fetch_license_info fs net metadata name).2 = .ok li ∧
          ((print_license_summary fs net metadata treeStdout asJson).records.map
              (fun r => r.name)).count name = 1) ∧
    (∀ name ∈ parseDeps treeStdout, is_local_package metadata name = some false →
      exceptIsOk (fetch_license_info fs net metadata name).2 = false →
      (print_license_summary fs net metadata treeStdout asJson).result ≠ .ok ()) := by
  constructor
  · intro hok name hmem hloc
    have hok' : (summaryLoop fs net metadata asJson (parseDeps treeStdout).length
        (sortNames (parseDeps treeStdout)) 0).result = .ok () := hok
    have hmap := summaryLoop_ok_records fs net metadata asJson
      (parseDeps treeStdout).length (sortNames (parseDeps treeStdout)) 0 hok'
    have hmemf : name ∈ (sortNames (parseDeps treeStdout)).filter
        (fun m => is_local_package metadata m == some false) :=
      List.mem_filter.mpr ⟨(mem_sortNames name _).mpr hmem, by simp [hloc]⟩
    have hnd : ((sortNames (parseDeps treeStdout)).filter
        (fun m => is_local_package metadata m == some false)).Nodup :=
      (sortNames_nodup _ (parseDeps_nodup treeStdout)).filter _
    have hcount := List.count_eq_one_of_mem hnd hmemf
    have hmemmap : name ∈ (summaryLoop fs net metadata asJson (parseDeps treeStdout).length
        (sortNames (parseDeps treeStdout)) 0).records.map (fun r => r.name) := by
      rw [hmap]; exact hmemf
    obtain ⟨li, hli, hname⟩ := List.mem_map.mp hmemmap
    refine ⟨li, ?_, ?_⟩
    · have hsound := summaryLoop_records_sound fs net metadata asJson
        (parseDeps treeStdout).length (sortNames (parseDeps treeStdout)) 0 li hli
      rw [hname] at hsound
      exact hsound
    · show ((summaryLoop fs net metadata asJson (parseDeps treeStdout).length
        (sortNames (parseDeps treeStdout)) 0).records.map (fun r => r.name)).count name = 1
      rw [hmap]; exact hcount
  · intro name hmem hloc hfail
    exact summaryLoop_fail fs net metadata asJson (parseDeps treeStdout).length
      (sortNames (parseDeps treeStdout)) 0 name ((mem_sortNames name _).mpr hmem) hloc hfail

def pkgAaaC9 : PkgInfo :=
  { name := "aaa", id := "aaa 1.0.0 (registry)", manifest_path := "/reg/aaa/Cargo.toml",
    authors := ["Alice"], repository := none, license := some "MIT",
    license_file := some "LIC", source := some "registry" }

def pkgZzzC9 : PkgInfo :=
  { name := "zzz", id := "zzz 0.1.0 (path+file:///ws/zzz)",
    manifest_path := "/ws/zzz/Cargo.toml", authors := [], repository := none,
    license := none, license_file := none, source := none }

def metaC9 : Metadata :=
  { packages := [("aaa", pkgAaaC9), ("zzz", pkgZzzC9)], workspace_root := "/ws" }

def fsC9 : FS :=
  { isDir := fun p => p == "/reg/aaa",
    isFile := fun p => p == "/reg/aaa/LIC",
    listdir := fun _ => [],
    read := fun p => if p == "/reg/aaa/LIC" then "AAA LICENSE TEXT" else "" }

def netC9 : Net := { get := fun _ => (404, "") }

/-- Witness for C9 on a successful run with a local and a non-local dep. -/
theorem nonlocal_deps_resolve_exactly_once_witness :
    ∃ li, (fetch_license_info fsC9 netC9 metaC9 "aaa").2 = .ok li ∧
      ((print_license_summary fsC9 netC9 metaC9 "aaa v1\nzzz v1" false).records.map
          (fun r => r.name)).count "aaa" = 1 :=
  (nonlocal_deps_resolve_exactly_once fsC9 netC9 metaC9 "aaa v1\nzzz v1" false).1
    (by decide) "aaa" (by decide) (by decide)

/-- C10: a dependency name printed by the tree command but absent from the
workspace lookup gives `is_local_package` no boolean to return (it raises
`KeyError`): the run cannot complete, `fetch_license_info` is never invoked
for that name, and — when every other dependency is either local, or
resolvable — the run's error is exactly the key-lookup error for that
name. -/
theorem unknown_dep_key_error (fs : FS) (net : Net) (metadata : Metadata)
    (treeStdout : String) (asJson : Bool) (name : String)
    (h1 : name ∈ parseDeps treeStdout)
    (h2 : metadata.packages.lookup name = none) :
    is_local_package metadata name = none ∧
    (print_license_summary fs net metadata treeStdout asJson).result ≠ .ok () ∧
    name ∉ (print_license_summary fs net metadata treeStdout asJson).attempted ∧
    ((∀ m ∈ parseDeps treeStdout, m ≠ name →
        ∃ b, is_local_package metadata m = some b ∧
          (b = false → exceptIsOk (fetch_license_info fs net metadata m).2 = true)) →
      (print_license_summary fs net metadata treeStdout asJson).result =
        .error (.keyError name)) := by
  have hnone := is_local_package_none metadata name h2
  refine ⟨hnone, ?_, ?_, ?_⟩
  · exact summaryLoop_missing fs net metadata asJson (parseDeps treeStdout).length
      (sortNames (parseDeps treeStdout)) 0 name ((mem_sortNames name _).mpr h1) hnone
  · intro hmem
    have hmem' : name ∈ (summaryLoop fs net metadata asJson (parseDeps treeStdout).length
        (sortNames (parseDeps treeStdout)) 0).attempted := hmem
    have := summaryLoop_attempted_sound fs net metadata asJson
      (parseDeps treeStdout).length (sortNames (parseDeps treeStdout)) 0 name hmem'
    rw [hnone] at this
    cases this
  · intro hwb
    exact summaryLoop_keyError fs net metadata asJson (parseDeps treeStdout).length
      (sortNames (parseDeps treeStdout)) 0 name ((mem_sortNames name _).mpr h1) hnone
      (fun m hm hne => hwb m ((mem_sortNames m _).mp hm) hne)

def metaC10 : Metadata :=
  { packages := [("aaa", pkgAaaC9)], workspace_root := "/ws" }

/-- Witness for C10: dependency `ghost` is missing from the lookup while
`aaa` resolves, so the run fails with the key-lookup error for `ghost`. -/
theorem unknown_dep_key_error_witness :
    (print_license_summary fsC9 netC9 metaC10 "aaa v1\nghost v1" false).result =
      .error (.keyError "ghost") :=
  (unknown_dep_key_error fsC9 netC9 metaC10 "aaa v1\nghost v1" false "ghost"
      (by decide) (by decide)).2.2.2 (by decide)

def pkgAaaC2 : PkgInfo :=
  { name := "aaa", id := "aaa 1.0.0 (registry)", manifest_path := "/reg/aaa/Cargo.toml",
    authors := ["Alice"], repository := some "https://github.com/org/aaa",
    license := some "MIT", license_file := some "LIC", source := some "registry" }

def pkgZzzC2 : PkgInfo :=
  { name := "zzz", id := "zzz 0.1.0 (path+file:///ws/zzz)",
    manifest_path := "/ws/zzz/Cargo.toml", authors := [], repository := none,
    license := none, license_file := none, source := none }

def metaC2 : Metadata :=
  { packages := [("aaa", pkgAaaC2), ("zzz", pkgZzzC2)], workspace_root := "/ws" }

def fsC2 : FS :=
  { isDir := fun p => p == "/reg/aaa",
    isFile := fun p => p == "/reg/aaa/LIC",
    listdir := fun _ => [],
    read := fun p => if p == "/reg/aaa/LIC" then "AAA LICENSE TEXT" else "" }

def netC2 : Net := { get := fun _ => (404, "") }

/-- C2: the closing bracket of the JSON output is printed only when the
*enumeration index* of the last sorted dependency is reached with a
non-local package; when the lexicographically last dependency is a skipped
local package (here `zzz`), the run completes with the sole record followed
by a comma and no closing bracket ever printed — the output is not a valid
JSON array, although the claim (and the spec) require one. -/
theorem json_array_left_unclosed :
    (print_license_summary fsC2 netC2 metaC2 "aaa v1\nzzz v1" true).result = .ok () ∧
    (print_license_summary fsC2 netC2 metaC2 "aaa v1\nzzz v1" true).output.getLast? =
      some "," ∧
    "]" ∉ (print_license_summary fsC2 netC2 metaC2 "aaa v1\nzzz v1" true).output := by
  decide

def fooA : PkgInfo :=
  { name := "foo", id := "foo 1.0.0 (registry+https://example)",
    manifest_path := "/reg/foo-1/Cargo.toml", authors := [], repository := none,
    license := none, license_file := none, source := some "registry" }

def fooB : PkgInfo :=
  { name := "foo", id := "foo 2.0.0 (registry+https://example)",
    manifest_path := "/reg/foo-2/Cargo.toml", authors := [], repository := none,
    license := none, license_file := none, source := some "registry" }

/-- C3: the source asserts `pkgInfo["id"] not in pkgInfoByName`, but the dict
is keyed by package *name*, so the assert compares an id against names and
never fires; two distinct packages sharing the name `foo` do not fail with a
data-integrity error — construction succeeds and the second entry silently
overwrites the first, contradicting the claim. -/
theorem duplicate_name_not_detected :
    fooA.name = fooB.name ∧ fooA ≠ fooB ∧
    get_workspace_metadata [fooA, fooB] "/ws" =
      .ok { packages := [("foo", fooB)], workspace_root := "/ws" } := by decide
